import Mathlib

/-!
Verification development for the riegeli byte-streaming library:
a shallow embedding of the limiting writer, the chunk decoder,
the fd writer, the framed-Snappy writer flush, and the protobuf
serialization entry point, with theorems about their behavior.

Machine integers of the source (`Position` = uint64, `size_t`,
`off_t`, `int`) are modelled as `Nat` with explicit bounds where
overflow matters.
-/

namespace Riegeli

/-- Canonical status codes used by the modelled operations
(absl::StatusCode subset). -/
inductive StatusCode where
  | ok
  | invalidArgument
  | resourceExhausted
  | dataLoss
  | fromErrno (e : Nat)
  deriving DecidableEq

/-- A status: a code plus a human-readable message
(absl::Status as used by riegeli). -/
structure Status where
  code : StatusCode
  message : String
  deriving DecidableEq

/-- Modelled from the spec: the inner writer used under the limiting
writer and the serializer is the spec's "inner capacity unlimited"
in-memory writer (the concrete `Writer` subclasses such as
`StringWriter` are outside the included sources).  It holds the byte
sequence written so far and a cursor position; all its operations
succeed. -/
structure MemWriter where
  data : List Nat
  pos : Nat
  deriving DecidableEq

def MemWriter.size (w : MemWriter) : Nat := w.data.length

/-- Write `src` at the current position (overwriting, then extending),
advancing the position by `src.length`. -/
def MemWriter.write (w : MemWriter) (src : List Nat) : MemWriter :=
  { data := w.data.take w.pos ++ src ++ w.data.drop (w.pos + src.length)
    pos := w.pos + src.length }

/-- Seek to an absolute position; the unlimited in-memory writer
always succeeds. -/
def MemWriter.seek (w : MemWriter) (p : Nat) : MemWriter :=
  { w with pos := p }

/-! ## Limiting writer (`riegeli/bytes/limiting_writer.cc`)

The buffer shared between `LimitingWriterBase` and its destination is
abstracted away: every modelled operation acts at a buffer-synchronized
boundary, so `SyncBuffer`/`MakeBuffer` (declared in
`limiting_writer.h`, not among the included sources; the spec describes
them as the identity publication/re-acquisition pair) are identities
here and `pos()` coincides with the inner writer's position. -/

structure LimitingWriter where
  inner : MemWriter
  maxPos : Nat
  exact : Bool
  healthy : Bool
  closed : Bool
  status : Option Status
  deriving DecidableEq

def LimitingWriter.pos (lw : LimitingWriter) : Nat := lw.inner.pos

/-- `LimitingWriterBase::FailLimitExceeded`: rewinds the destination
cursor by `pos() - max_pos_` (`dest.set_cursor(cursor() -
IntCast<size_t>(pos() - max_pos_))`, pointer arithmetic modulo 2^64,
so the destination position becomes exactly `max_pos_`), then latches
a resource-exhausted status. -/
def LimitingWriter.failLimitExceeded (lw : LimitingWriter) :
    Bool × LimitingWriter :=
  (false,
   { lw with
      inner := { lw.inner with pos := lw.maxPos }
      healthy := false
      status := some ⟨.resourceExhausted, "Position limit exceeded"⟩ })

/-- `LimitingWriterBase::WriteInternal`: after the buffer sync, if the
source is larger than `max_pos_ - pos()` fail with the limit exceeded,
otherwise delegate the write to the destination. -/
def LimitingWriter.writeInternal (lw : LimitingWriter) (src : List Nat) :
    Bool × LimitingWriter :=
  if lw.healthy = false then (false, lw)
  else if src.length > lw.maxPos - lw.pos then lw.failLimitExceeded
  else (true, { lw with inner := lw.inner.write src })

/-- `LimitingWriterBase::SeekSlow`: seek the destination to
`UnsignedMin(new_pos, max_pos_)` and succeed iff that equals the
requested position (the in-memory destination's seek succeeds). -/
def LimitingWriter.seekSlow (lw : LimitingWriter) (newPos : Nat) :
    Bool × LimitingWriter :=
  if lw.healthy = false then (false, lw)
  else
    let posToSeek := min newPos lw.maxPos
    (posToSeek = newPos, { lw with inner := lw.inner.seek posToSeek })

/-- `LimitingWriterBase::SizeImpl`: the destination size clamped to
`max_pos_`. -/
def LimitingWriter.sizeImpl (lw : LimitingWriter) : Option Nat :=
  if lw.healthy = false then none
  else some (min lw.inner.size lw.maxPos)

/-- `LimitingWriterBase::Done`: after syncing the buffer, in exact mode
a final position short of `max_pos_` latches an invalid-argument
status "Not enough data: expected <max_pos>". -/
def LimitingWriter.done (lw : LimitingWriter) : LimitingWriter :=
  if lw.exact = true ∧ lw.pos < lw.maxPos then
    { lw with
        healthy := false
        closed := true
        status := some ⟨.invalidArgument,
          "Not enough data: expected " ++ toString lw.maxPos⟩ }
  else { lw with closed := true }

/-- The operations a caller can issue against a limiting writer, used
to state properties over every call sequence. -/
inductive LWOp where
  | write (src : List Nat)
  | seek (p : Nat)
  | close
  deriving DecidableEq

def LimitingWriter.step (lw : LimitingWriter) : LWOp → LimitingWriter
  | .write src => (lw.writeInternal src).2
  | .seek p => (lw.seekSlow p).2
  | .close => lw.done

def LimitingWriter.run (lw : LimitingWriter) (ops : List LWOp) :
    LimitingWriter :=
  ops.foldl LimitingWriter.step lw

/-! ## Chunk decoder (`riegeli/chunk_encoding/chunk_decoder.h`)

`values_reader_` (a `ChainReader` over the decoded values buffer) is
modelled by the byte list `values` together with its position `vpos`;
`record_scratch_` is transparent to the returned bytes.  The three
raw-bytes `ReadRecord` overloads (`string_view*`, `string*`, `Chain*`)
differ only in the output container and share one model. -/

structure ChunkDecoder where
  limits : List Nat
  values : List Nat
  vpos : Nat
  index : Nat
  healthy : Bool
  recoverable : Bool
  deriving DecidableEq

def ChunkDecoder.numRecords (d : ChunkDecoder) : Nat := d.limits.length

/-- `ChunkDecoder::ReadRecord` (raw-bytes overloads): at the end of the
chunk or when unhealthy return false; otherwise read
`limits_[index_] - values_reader_.pos()` bytes from the values reader
and increment the index.  The read never fails (asserted unreachable
in the source), so the reader position advances by the requested
amount. -/
def ChunkDecoder.readRecord (d : ChunkDecoder) :
    Option (List Nat) × ChunkDecoder :=
  if d.index = d.numRecords ∨ d.healthy = false then (none, d)
  else
    let start := d.vpos
    let limit := d.limits.getD d.index 0
    let r := (d.values.drop start).take (limit - start)
    (some r, { d with index := d.index + 1, vpos := start + (limit - start) })

/-- Modelled from the spec: `ChunkDecoder::ReadRecord(MessageLite*)`
(its body lives in `chunk_encoding/chunk_decoder.cc`, not among the
included sources): same positioning as the raw overloads, then the
slice is parsed as a proto message under the field filter; on parse
failure a data-loss failure is latched and `recoverable_` is set.  The
parse outcome is abstracted by the predicate `parseOk`. -/
def ChunkDecoder.readRecordMessage (d : ChunkDecoder)
    (parseOk : List Nat → Bool) : Bool × ChunkDecoder :=
  match d.readRecord with
  | (none, d') => (false, d')
  | (some r, d') =>
    if parseOk r then (true, d')
    else (false, { d' with healthy := false, recoverable := true })

/-- Modelled from the spec: `ChunkDecoder::Recover` (its body lives in
`chunk_encoding/chunk_decoder.cc`, not among the included sources): if
`recoverable_`, clear the failure and return true, else return
false. -/
def ChunkDecoder.recover (d : ChunkDecoder) : Bool × ChunkDecoder :=
  if d.recoverable = true then
    (true, { d with recoverable := false, healthy := true })
  else (false, d)

/-- Modelled from the spec: `ChunkDecoder::Reset()` (its body lives in
`chunk_encoding/chunk_decoder.cc`, not among the included sources):
resets the decoder to an empty chunk. -/
def ChunkDecoder.resetEmpty : ChunkDecoder :=
  { limits := [], values := [], vpos := 0, index := 0,
    healthy := true, recoverable := false }

/-- `ChunkDecoder::SetIndex`: clamp the index to `[0, num_records()]`
and seek the values reader to `limits_[index_ - 1]` (0 when the index
is 0); the seek never fails (asserted unreachable in the source). -/
def ChunkDecoder.setIndex (d : ChunkDecoder) (i : Nat) : ChunkDecoder :=
  let idx := min i d.numRecords
  let start := if idx = 0 then 0 else d.limits.getD (idx - 1) 0
  { d with index := idx, vpos := start }

/-- The decoder state freshly produced by a successful `Reset(chunk)`
on a chunk decoding to end-offset table `limits` and values buffer
`values`. -/
def ChunkDecoder.ofChunk (limits values : List Nat) : ChunkDecoder :=
  { limits := limits, values := values, vpos := 0, index := 0,
    healthy := true, recoverable := false }

/-- The decoder state reached after `i` successful raw reads of a
chunk with end-offset table `limits` and values buffer `values`. -/
def ChunkDecoder.stateAt (limits values : List Nat) (i : Nat) : ChunkDecoder :=
  { limits := limits, values := values,
    vpos := if i = 0 then 0 else limits.getD (i - 1) 0,
    index := i, healthy := true, recoverable := false }

/-- The documented invariants of `ChunkDecoder` (source lines 129-142):
sorted limits, last limit = values size when nonempty, reader position
determined by the index, index within range, and recoverable only when
unhealthy. -/
def ChunkDecoder.Inv (d : ChunkDecoder) : Prop :=
  d.limits.Sorted (· ≤ ·) ∧
  (d.limits ≠ [] → d.limits.getLastD 0 = d.values.length) ∧
  d.vpos = (if d.index = 0 then 0 else d.limits.getD (d.index - 1) 0) ∧
  d.index ≤ d.numRecords ∧
  (d.recoverable = true → d.healthy = false)

instance (d : ChunkDecoder) : Decidable d.Inv := by
  unfold ChunkDecoder.Inv; infer_instance

/-- The i-th record of a chunk:
`values[limits[i-1] .. limits[i]]` with lower bound 0 for `i = 0`. -/
def recordSlice (limits values : List Nat) (i : Nat) : List Nat :=
  let lo := if i = 0 then 0 else limits.getD (i - 1) 0
  (values.drop lo).take (limits.getD i 0 - lo)

/-- Iterate `ReadRecord` at most `n` times, collecting the successful
reads in order, stopping at the first false return. -/
def ChunkDecoder.readAll : Nat → ChunkDecoder → List (List Nat) × ChunkDecoder
  | 0, d => ([], d)
  | n + 1, d =>
    match d.readRecord with
    | (none, d') => ([], d')
    | (some r, d') =>
      let p := ChunkDecoder.readAll n d'
      (r :: p.1, p.2)

/-! ## Fd writer (`riegeli/bytes/fd_writer.cc`, FdWriterBase)

The operating system is an oracle: each POSIX `write()`/`pwrite()`
attempt consumes one entry of a result list (either a byte count or an
errno).  The file's contents are summarized by its size; the buffer
inherited from `BufferedWriter` is summarized by the count of bytes it
holds (`written_to_buffer()`). -/

/-- Result of one `write()`/`pwrite()` attempt. -/
inductive SysWrite where
  | wrote (n : Nat)
  | errno (e : Nat)
  deriving DecidableEq

def EINTR : Nat := 4

/-- `std::numeric_limits<off_t>::max()` (64-bit `off_t`). -/
def offMax : Nat := 2 ^ 63 - 1

/-- `std::numeric_limits<ssize_t>::max()`. -/
def ssizeMax : Nat := 2 ^ 63 - 1

structure FdWriter where
  startPos : Nat
  buffered : Nat
  fileSize : Nat
  healthy : Bool
  failedErrno : Option Nat
  status : Option Status
  deriving DecidableEq

def FdWriter.pos (w : FdWriter) : Nat := w.startPos + w.buffered

/-- `FdWriterCommon::FailOperation`: latch a status mapped from the
current errno. -/
def FdWriter.failOperation (w : FdWriter) (e : Nat) : FdWriter :=
  { w with healthy := false, failedErrno := some e,
           status := some ⟨.fromErrno e, "operation failed"⟩ }

/-- `FailOverflow`: latch a resource-exhausted writer position
overflow. -/
def FdWriter.failOverflow (w : FdWriter) : FdWriter :=
  { w with healthy := false,
           status := some ⟨.resourceExhausted, "Writer position overflow"⟩ }

/-- The `do { write(); } while (!src.empty())` loop of
`FdWriterBase::WriteInternal`: each attempt asks for
`UnsignedMin(src.size(), ssizeMax)` bytes; a negative return with
`errno == EINTR` retries, any other errno fails the writer; a positive
return moves `start_pos` and drops the written prefix of `src`.  The
result carries the bytes actually handed to the OS, in order.  `none`
means the oracle ran out, or returned a count violating the source's
asserted bounds (`0 < n ≤ requested`). -/
def fdWriteLoop : FdWriter → List Nat → List SysWrite →
    Option (Bool × FdWriter × List Nat)
  | w, [], _ => some (true, w, [])
  | _, _ :: _, [] => none
  | w, b :: rest, .errno e :: os =>
    if e = EINTR then fdWriteLoop w (b :: rest) os
    else some (false, w.failOperation e, [])
  | w, b :: rest, .wrote n :: os =>
    if 0 < n ∧ n ≤ min (b :: rest).length ssizeMax then
      match fdWriteLoop { w with startPos := w.startPos + n }
          ((b :: rest).drop n) os with
      | none => none
      | some (ok, w', out) => some (ok, w', (b :: rest).take n ++ out)
    else none

/-- `FdWriterBase::WriteInternal`: fail with overflow when the write
would take `start_pos` beyond `off_t` range, otherwise run the write
loop.  (`pwrite` at `start_pos` for an independent position and plain
`write` behave identically at this level of abstraction.) -/
def FdWriter.writeInternal (w : FdWriter) (src : List Nat)
    (oracle : List SysWrite) : Option (Bool × FdWriter × List Nat) :=
  if src.length > offMax - w.startPos then some (false, w.failOverflow, [])
  else fdWriteLoop w src oracle

/-- `BufferedWriter::PushInternal` as used by `SeekSlow`/`Truncate`:
deliver the buffered bytes to the file (extending it) and empty the
buffer; a no-op when the buffer is empty. -/
def FdWriter.pushInternal (w : FdWriter) : Bool × FdWriter :=
  if w.healthy = false then (false, w)
  else if w.buffered = 0 then (true, w)
  else
    (true, { w with startPos := w.startPos + w.buffered, buffered := 0,
                    fileSize := max w.fileSize (w.startPos + w.buffered) })

/-- `FdWriterBase::SeekSlow`: flush the buffer, then for a forward
seek consult `fstat`; a target beyond the file size sets the position
to the file size and returns false without failing; otherwise adopt
the target.  (`fstat` and the `lseek` of `SyncPos` succeed in this
model.) -/
def FdWriter.seekSlow (w : FdWriter) (newPos : Nat) : Bool × FdWriter :=
  match w.pushInternal with
  | (false, w1) => (false, w1)
  | (true, w1) =>
    if newPos ≥ w1.startPos then
      if newPos > w1.fileSize then
        (false, { w1 with startPos := w1.fileSize })
      else (true, { w1 with startPos := newPos })
    else (true, { w1 with startPos := newPos })

/-- `FdWriterBase::Size`: `UnsignedMax(fstat size, pos())` when
healthy (`fstat` succeeds in this model). -/
def FdWriter.sizeImpl (w : FdWriter) : Option Nat :=
  if w.healthy = false then none
  else some (max w.fileSize w.pos)

/-! ## Message serialization (`riegeli/bytes/message_serialize.cc`)

A proto message is summarized by whether it has all required fields
and by its serialized byte string (`ByteSizeLong()` is its length). -/

structure ProtoMessage where
  initialized : Bool
  bytes : List Nat

/-- `std::numeric_limits<int>::max()`: the maximum protobuf size. -/
def intMax : Nat := 2 ^ 31 - 1

/-- `SerializeOptions`: `allowUninitialized` models
`SerializeOptions::partial()` (default false). -/
structure SerializeOptions where
  allowUninitialized : Bool := false
  deterministic : Bool := false

/-- `internal::SerializeToWriterImpl`: reject a message missing
required fields (unless serializing partially), then reject a
serialized size above `int` range with resource-exhausted, and only
then serialize through the writer. -/
def serializeToWriterImpl (src : ProtoMessage) (opts : SerializeOptions)
    (dest : MemWriter) : Status × MemWriter :=
  if opts.allowUninitialized = false ∧ src.initialized = false then
    (⟨.invalidArgument,
      "Failed to serialize message because it is missing required fields"⟩,
     dest)
  else if src.bytes.length > intMax then
    (⟨.resourceExhausted,
      "Failed to serialize message because it exceeds maximum protobuf size of 2GB"⟩,
     dest)
  else (⟨.ok, ""⟩, dest.write src.bytes)

/-! ## Framed-Snappy writer flush (`snappy/framed/framed_snappy_writer.h`)

`FramedSnappyWriter<Dest>::FlushImpl` (source lines 313-324).  The
base-class flush (`FramedSnappyWriterBase::FlushImpl`, whose body
lives in `framed_snappy_writer.cc`, not among the included sources) is
modelled from the spec: it compresses and emits the buffered
uncompressed block into the inner writer and succeeds iff the writer
is healthy.  The inner writer's own flush outcome is a parameter of
the state. -/

inductive FlushType where
  | fromObject
  | fromProcess
  | fromMachine
  deriving DecidableEq

structure FramedSnappyWriter where
  bufLen : Nat
  healthy : Bool
  owning : Bool
  innerFlushOk : Bool
  innerStatus : Status
  status : Option Status
  deriving DecidableEq

/-- Modelled from the spec: `FramedSnappyWriterBase::FlushImpl`
(flush of this layer only): emit the buffered block; requires
`healthy()`. -/
def FramedSnappyWriter.baseFlush (w : FramedSnappyWriter) :
    Bool × FramedSnappyWriter :=
  if w.healthy = false then (false, w)
  else (true, { w with bufLen := 0 })

/-- `FramedSnappyWriter<Dest>::FlushImpl`: flush this layer; if that
fails return false.  Then, when the scope exceeds from-object or the
destination is owned, flush the destination; a destination flush
failure is latched (`FailWithoutAnnotation`) but the call still
returns true. -/
def FramedSnappyWriter.flushImpl (w : FramedSnappyWriter)
    (flushType : FlushType) : Bool × FramedSnappyWriter :=
  match w.baseFlush with
  | (false, w1) => (false, w1)
  | (true, w1) =>
    if flushType ≠ .fromObject ∨ w1.owning = true then
      if w1.innerFlushOk = false then
        (true, { w1 with healthy := false, status := some w1.innerStatus })
      else (true, w1)
    else (true, w1)

/-! ## Theorems: limiting writer -/

theorem LimitingWriter.step_maxPos (lw : LimitingWriter) (op : LWOp) :
    (lw.step op).maxPos = lw.maxPos := by
  cases op <;>
    simp only [step, writeInternal, failLimitExceeded, seekSlow, done,
      MemWriter.write, MemWriter.seek] <;>
    split <;> simp_all <;> split <;> simp_all

theorem LimitingWriter.step_pos_le (lw : LimitingWriter) (op : LWOp)
    (h : lw.pos ≤ lw.maxPos) : (lw.step op).pos ≤ lw.maxPos := by
  cases op with
  | write src =>
    simp only [step, writeInternal, failLimitExceeded, MemWriter.write, pos]
    split
    · exact h
    · split
      · simp
      · simp only [pos] at h ⊢
        omega
  | seek p =>
    simp only [step, seekSlow, MemWriter.seek, pos]
    split
    · exact h
    · simp only [pos]
      omega
  | close =>
    simp only [step, done, pos]
    split <;> simpa using h

theorem LimitingWriter.run_pos_le (ops : List LWOp) (lw : LimitingWriter)
    (h : lw.pos ≤ lw.maxPos) : (lw.run ops).pos ≤ lw.maxPos := by
  induction ops generalizing lw with
  | nil => simpa [run] using h
  | cons op ops ih =>
    have h1 : (lw.run (op :: ops)) = (lw.step op).run ops := rfl
    rw [h1]
    have h2 := lw.step_maxPos op
    have h3 := lw.step_pos_le op h
    have h4 := ih (lw.step op) (h2 ▸ h3)
    exact h2 ▸ h4

/-- C1: for a healthy open limiting writer whose position respects the
limit, a write of more bytes than `max_pos - pos()` returns false,
latches a resource-exhausted "Position limit exceeded" status, leaves
the inner writer's position at exactly `max_pos`, and across every
call sequence the position never exceeds `max_pos`. -/
theorem limitingWriter_write_over_limit (lw : LimitingWriter)
    (hh : lw.healthy = true) (hopen : lw.closed = false)
    (hinv : lw.pos ≤ lw.maxPos) (src : List Nat)
    (hsz : src.length > lw.maxPos - lw.pos) :
    (lw.writeInternal src).1 = false ∧
    (lw.writeInternal src).2.healthy = false ∧
    (lw.writeInternal src).2.status =
      some ⟨.resourceExhausted, "Position limit exceeded"⟩ ∧
    (lw.writeInternal src).2.pos = lw.maxPos ∧
    ∀ ops : List LWOp, (lw.run ops).pos ≤ lw.maxPos := by
  have hwr : lw.writeInternal src = lw.failLimitExceeded := by
    simp only [LimitingWriter.writeInternal, hh]
    simp only [if_neg (by simp : ¬(true = false))]
    rw [if_pos hsz]
  refine ⟨?_, ?_, ?_, ?_, fun ops => lw.run_pos_le ops hinv⟩ <;>
    rw [hwr] <;>
    simp [LimitingWriter.failLimitExceeded, LimitingWriter.pos]

/-- C1 witness: a concrete healthy writer with limit 5 at position 0
rejects a 6-byte write. -/
theorem limitingWriter_write_over_limit_witness :
    (LimitingWriter.writeInternal
        ⟨⟨[], 0⟩, 5, false, true, false, none⟩ [1, 2, 3, 4, 5, 6]).1 = false ∧
    (LimitingWriter.writeInternal
        ⟨⟨[], 0⟩, 5, false, true, false, none⟩ [1, 2, 3, 4, 5, 6]).2.healthy = false ∧
    (LimitingWriter.writeInternal
        ⟨⟨[], 0⟩, 5, false, true, false, none⟩ [1, 2, 3, 4, 5, 6]).2.status =
      some ⟨.resourceExhausted, "Position limit exceeded"⟩ ∧
    (LimitingWriter.writeInternal
        ⟨⟨[], 0⟩, 5, false, true, false, none⟩ [1, 2, 3, 4, 5, 6]).2.pos = 5 ∧
    ∀ ops : List LWOp,
      (LimitingWriter.run ⟨⟨[], 0⟩, 5, false, true, false, none⟩ ops).pos ≤ 5 :=
  limitingWriter_write_over_limit ⟨⟨[], 0⟩, 5, false, true, false, none⟩
    rfl rfl (by decide) [1, 2, 3, 4, 5, 6] (by decide)

/-- C3: in exact mode, closing with a final position short of
`max_pos` latches an invalid-argument "Not enough data: expected
<max_pos>" status, while closing exactly at `max_pos` keeps the writer
healthy. -/
theorem limitingWriter_exact_close (lw : LimitingWriter)
    (hx : lw.exact = true) (hh : lw.healthy = true) :
    (lw.pos < lw.maxPos →
       lw.done.healthy = false ∧
       lw.done.closed = true ∧
       lw.done.status = some ⟨.invalidArgument,
         "Not enough data: expected " ++ toString lw.maxPos⟩) ∧
    (lw.pos = lw.maxPos →
       lw.done.healthy = true ∧
       lw.done.closed = true ∧
       lw.done.status = lw.status) := by
  constructor
  · intro hlt
    rw [LimitingWriter.done, if_pos ⟨hx, hlt⟩]
    exact ⟨rfl, rfl, rfl⟩
  · intro heq
    rw [LimitingWriter.done, if_neg (by simp [LimitingWriter.pos] at heq ⊢; omega)]
    exact ⟨hh, rfl, rfl⟩

/-- C3 witness: with `max_pos = 10` and exact mode, closing at
position 9 fails with "Not enough data: expected 10"; the statement is
the instantiated conclusion for that writer. -/
theorem limitingWriter_exact_close_witness :
    ((LimitingWriter.pos ⟨⟨List.replicate 9 0, 9⟩, 10, true, true, false, none⟩ < 10 →
       (LimitingWriter.done ⟨⟨List.replicate 9 0, 9⟩, 10, true, true, false, none⟩).healthy = false ∧
       (LimitingWriter.done ⟨⟨List.replicate 9 0, 9⟩, 10, true, true, false, none⟩).closed = true ∧
       (LimitingWriter.done ⟨⟨List.replicate 9 0, 9⟩, 10, true, true, false, none⟩).status =
         some ⟨.invalidArgument, "Not enough data: expected " ++ toString 10⟩) ∧
     (LimitingWriter.pos ⟨⟨List.replicate 9 0, 9⟩, 10, true, true, false, none⟩ = 10 →
       (LimitingWriter.done ⟨⟨List.replicate 9 0, 9⟩, 10, true, true, false, none⟩).healthy = true ∧
       (LimitingWriter.done ⟨⟨List.replicate 9 0, 9⟩, 10, true, true, false, none⟩).closed = true ∧
       (LimitingWriter.done ⟨⟨List.replicate 9 0, 9⟩, 10, true, true, false, none⟩).status = none)) :=
  limitingWriter_exact_close ⟨⟨List.replicate 9 0, 9⟩, 10, true, true, false, none⟩ rfl rfl

/-- C4: for a healthy limiting writer, `Seek(p)` places the inner
writer at `min(p, max_pos)` and reports failure precisely when
`p > max_pos`. -/
theorem limitingWriter_seek_clamps (lw : LimitingWriter) (p : Nat)
    (hh : lw.healthy = true) :
    (lw.seekSlow p).2.pos = min p lw.maxPos ∧
    ((lw.seekSlow p).1 = false ↔ p > lw.maxPos) := by
  rw [LimitingWriter.seekSlow, if_neg (by simp [hh])]
  constructor
  · simp [MemWriter.seek, LimitingWriter.pos]
  · simp only [decide_eq_false_iff_not]
    omega

/-- C4 witness: seeking to 7 under limit 5 clamps to 5 and reports
failure; the statement is the instantiated conclusion. -/
theorem limitingWriter_seek_clamps_witness :
    (LimitingWriter.seekSlow ⟨⟨[], 0⟩, 5, false, true, false, none⟩ 7).2.pos = min 7 5 ∧
    ((LimitingWriter.seekSlow ⟨⟨[], 0⟩, 5, false, true, false, none⟩ 7).1 = false ↔ 7 > 5) :=
  limitingWriter_seek_clamps ⟨⟨[], 0⟩, 5, false, true, false, none⟩ 7 rfl

/-! ## Theorems: chunk decoder -/

theorem sorted_lo_le_getD (limits : List Nat) (hs : limits.Sorted (· ≤ ·))
    (i : Nat) (hi : i < limits.length) :
    (if i = 0 then 0 else limits.getD (i - 1) 0) ≤ limits.getD i 0 := by
  split
  · exact Nat.zero_le _
  · rename_i h0
    have hi1 : i - 1 < limits.length := Nat.lt_of_le_of_lt (Nat.sub_le i 1) hi
    rw [List.getD_eq_getElem _ _ hi1, List.getD_eq_getElem _ _ hi]
    have hr := hs.rel_get_of_lt (a := ⟨i - 1, hi1⟩) (b := ⟨i, hi⟩)
      (by simp [Fin.lt_def]; omega)
    simpa [List.get_eq_getElem] using hr

theorem ChunkDecoder.readRecord_stateAt (limits values : List Nat)
    (hs : limits.Sorted (· ≤ ·)) (i : Nat) (hi : i < limits.length) :
    (ChunkDecoder.stateAt limits values i).readRecord =
      (some (recordSlice limits values i),
       ChunkDecoder.stateAt limits values (i + 1)) := by
  have hle := sorted_lo_le_getD limits hs i hi
  rw [ChunkDecoder.readRecord,
    if_neg (by simp [ChunkDecoder.stateAt, ChunkDecoder.numRecords]; omega)]
  simp only [ChunkDecoder.stateAt, recordSlice, ChunkDecoder.numRecords]
  refine Prod.ext rfl ?_
  simp only [ChunkDecoder.mk.injEq, Nat.add_eq_zero, Nat.add_sub_cancel,
    if_neg (by omega : ¬(i + 1 = 0))]
  refine ⟨by trivial, by trivial, ?_, by trivial, by trivial, by trivial⟩
  by_cases hz : i = 0 <;> simp [hz] at hle ⊢ <;> omega

theorem ChunkDecoder.readAll_stateAt (limits values : List Nat)
    (hs : limits.Sorted (· ≤ ·)) :
    ∀ (k i : Nat), i + k = limits.length →
      ChunkDecoder.readAll k (ChunkDecoder.stateAt limits values i) =
        ((List.range' i k).map (recordSlice limits values),
         ChunkDecoder.stateAt limits values limits.length) := by
  intro k
  induction k with
  | zero =>
    intro i hi
    have h2 : i = limits.length := by omega
    subst h2
    simp [ChunkDecoder.readAll, List.range']
  | succ k ih =>
    intro i hi
    have hilt : i < limits.length := by omega
    rw [ChunkDecoder.readAll,
      ChunkDecoder.readRecord_stateAt limits values hs i hilt]
    simp only [ih (i + 1) (by omega), List.range']
    simp

/-- C2: on a valid chunk (sorted end offsets whose last entry is the
values size), the raw `ReadRecord` overloads succeed exactly `N` times
in order, the i-th success yielding the bytes
`values[limits[i-1] .. limits[i]]`; after the N-th read a further
`ReadRecord` returns false while the decoder stays healthy. -/
theorem chunkDecoder_raw_reads (limits values : List Nat)
    (hs : limits.Sorted (· ≤ ·))
    (hlast : limits ≠ [] → limits.getLastD 0 = values.length) :
    (ChunkDecoder.readAll limits.length
        (ChunkDecoder.ofChunk limits values)).1 =
      (List.range limits.length).map (recordSlice limits values) ∧
    (ChunkDecoder.readAll limits.length
        (ChunkDecoder.ofChunk limits values)).1.length = limits.length ∧
    (ChunkDecoder.readAll limits.length
        (ChunkDecoder.ofChunk limits values)).2.readRecord =
      (none,
       (ChunkDecoder.readAll limits.length
          (ChunkDecoder.ofChunk limits values)).2) ∧
    (ChunkDecoder.readAll limits.length
        (ChunkDecoder.ofChunk limits values)).2.healthy = true := by
  have h0 : ChunkDecoder.ofChunk limits values =
      ChunkDecoder.stateAt limits values 0 := rfl
  rw [h0, ChunkDecoder.readAll_stateAt limits values hs limits.length 0
    (by omega)]
  refine ⟨?_, ?_, ?_, rfl⟩
  · simp [List.range_eq_range']
  · simp
  · show (ChunkDecoder.stateAt limits values limits.length).readRecord =
      (none, ChunkDecoder.stateAt limits values limits.length)
    have hend : (ChunkDecoder.stateAt limits values limits.length).index =
        (ChunkDecoder.stateAt limits values limits.length).numRecords := rfl
    rw [ChunkDecoder.readRecord, if_pos (Or.inl hend)]

/-- C2 witness: the chunk with end offsets [2, 2, 5] over a 5-byte
values buffer yields its three records then EOF. -/
theorem chunkDecoder_raw_reads_witness :
    (ChunkDecoder.readAll (List.length [2, 2, 5])
        (ChunkDecoder.ofChunk [2, 2, 5] [10, 11, 12, 13, 14])).1 =
      (List.range (List.length [2, 2, 5])).map
        (recordSlice [2, 2, 5] [10, 11, 12, 13, 14]) ∧
    (ChunkDecoder.readAll (List.length [2, 2, 5])
        (ChunkDecoder.ofChunk [2, 2, 5] [10, 11, 12, 13, 14])).1.length =
      List.length [2, 2, 5] ∧
    (ChunkDecoder.readAll (List.length [2, 2, 5])
        (ChunkDecoder.ofChunk [2, 2, 5] [10, 11, 12, 13, 14])).2.readRecord =
      (none,
       (ChunkDecoder.readAll (List.length [2, 2, 5])
          (ChunkDecoder.ofChunk [2, 2, 5] [10, 11, 12, 13, 14])).2) ∧
    (ChunkDecoder.readAll (List.length [2, 2, 5])
        (ChunkDecoder.ofChunk [2, 2, 5] [10, 11, 12, 13, 14])).2.healthy = true :=
  chunkDecoder_raw_reads [2, 2, 5] [10, 11, 12, 13, 14]
    (by decide) (by decide)

theorem ChunkDecoder.readRecord_inv (d : ChunkDecoder) (h : d.Inv) :
    d.readRecord.2.Inv := by
  obtain ⟨hs, hlast, hvpos, hidx, hrec⟩ := h
  rw [ChunkDecoder.readRecord]
  split
  · exact ⟨hs, hlast, hvpos, hidx, hrec⟩
  · rename_i hg
    push_neg at hg
    have hilt : d.index < d.numRecords := Nat.lt_of_le_of_ne hidx hg.1
    have hle := sorted_lo_le_getD d.limits hs d.index hilt
    refine ⟨hs, hlast, ?_, by simpa [ChunkDecoder.numRecords] using hilt,
      hrec⟩
    simp only [Nat.add_eq_zero, Nat.add_sub_cancel,
      if_neg (by omega : ¬(d.index + 1 = 0))]
    rw [hvpos]
    by_cases hz : d.index = 0 <;> simp [hz] at hle ⊢ <;> omega

/-- C5: the decoder operations (reset, the raw and message `ReadRecord`
overloads, `Recover`, and — under its `healthy()` precondition —
`SetIndex`) preserve the documented invariants: sorted limits, last
limit equal to the values size, reader position determined by the
index, index within range, and `recoverable` only when unhealthy. -/
theorem chunkDecoder_invariants_preserved (d : ChunkDecoder) (h : d.Inv)
    (parseOk : List Nat → Bool) (i : Nat) :
    ChunkDecoder.resetEmpty.Inv ∧
    d.readRecord.2.Inv ∧
    (d.readRecordMessage parseOk).2.Inv ∧
    d.recover.2.Inv ∧
    (d.healthy = true → (d.setIndex i).Inv) := by
  obtain ⟨hs, hlast, hvpos, hidx, hrec⟩ := h
  have hinv : d.Inv := ⟨hs, hlast, hvpos, hidx, hrec⟩
  have hread := ChunkDecoder.readRecord_inv d hinv
  refine ⟨by decide, hread, ?_, ?_, ?_⟩
  · rw [ChunkDecoder.readRecordMessage]
    rcases hr : d.readRecord with ⟨o, d1⟩
    rw [hr] at hread
    cases o with
    | none => exact hread
    | some r =>
      simp only []
      split
      · exact hread
      · obtain ⟨a, b, c, e, f⟩ := hread
        exact ⟨a, b, c, e, fun _ => rfl⟩
  · rw [ChunkDecoder.recover]
    split
    · exact ⟨hs, hlast, hvpos, hidx, fun hx => by simp at hx⟩
    · exact ⟨hs, hlast, hvpos, hidx, hrec⟩
  · intro hh
    refine ⟨hs, hlast, rfl, ?_, by simpa using hrec⟩
    simp [ChunkDecoder.setIndex, ChunkDecoder.numRecords]

/-- C5 witness: the invariants hold for a concrete two-record decoder
and are preserved by each operation on it (with the always-true parse
and target index 1). -/
theorem chunkDecoder_invariants_preserved_witness :
    ChunkDecoder.resetEmpty.Inv ∧
    (ChunkDecoder.readRecord ⟨[2, 5], [6, 7, 8, 9, 10], 0, 0, true, false⟩).2.Inv ∧
    (ChunkDecoder.readRecordMessage ⟨[2, 5], [6, 7, 8, 9, 10], 0, 0, true, false⟩
        (fun _ => true)).2.Inv ∧
    (ChunkDecoder.recover ⟨[2, 5], [6, 7, 8, 9, 10], 0, 0, true, false⟩).2.Inv ∧
    ((⟨[2, 5], [6, 7, 8, 9, 10], 0, 0, true, false⟩ : ChunkDecoder).healthy = true →
      (ChunkDecoder.setIndex ⟨[2, 5], [6, 7, 8, 9, 10], 0, 0, true, false⟩ 1).Inv) :=
  chunkDecoder_invariants_preserved ⟨[2, 5], [6, 7, 8, 9, 10], 0, 0, true, false⟩
    (by decide) (fun _ => true) 1

/-! ## Theorems: fd writer -/

theorem fdWriteLoop_spec (oracle : List SysWrite) :
    ∀ (w : FdWriter) (src : List Nat) (ok : Bool) (w' : FdWriter)
      (out : List Nat),
      fdWriteLoop w src oracle = some (ok, w', out) →
      (ok = true → out = src ∧ w'.startPos = w.startPos + src.length) ∧
      (ok = false → w'.failedErrno ≠ some EINTR ∧ w'.healthy = false) := by
  induction oracle with
  | nil =>
    intro w src ok w' out h
    cases src with
    | nil =>
      rw [fdWriteLoop] at h
      obtain ⟨rfl, rfl, rfl⟩ := by simpa using h
      exact ⟨fun _ => ⟨rfl, by simp⟩, fun hf => by simp at hf⟩
    | cons b rest => simp [fdWriteLoop] at h
  | cons o os ih =>
    intro w src ok w' out h
    cases src with
    | nil =>
      rw [fdWriteLoop] at h
      obtain ⟨rfl, rfl, rfl⟩ := by simpa using h
      exact ⟨fun _ => ⟨rfl, by simp⟩, fun hf => by simp at hf⟩
    | cons b rest =>
      cases o with
      | errno e =>
        rw [fdWriteLoop] at h
        split at h
        · exact ih w (b :: rest) ok w' out h
        · rename_i hne
          obtain ⟨rfl, rfl, rfl⟩ := by simpa using h
          refine ⟨fun hf => by simp at hf, fun _ => ⟨?_, rfl⟩⟩
          simp only [FdWriter.failOperation, Option.some.injEq, ne_eq]
          exact fun hc => hne hc
      | wrote n =>
        rw [fdWriteLoop] at h
        split at h
        · rename_i hg
          rcases hin : fdWriteLoop { w with startPos := w.startPos + n }
              ((b :: rest).drop n) os with _ | ⟨ok1, w1, out1⟩
          · rw [hin] at h
            simp at h
          · rw [hin] at h
            simp only [Option.some.injEq, Prod.mk.injEq] at h
            obtain ⟨rfl, rfl, rfl⟩ := h
            have hih := ih _ _ _ _ _ hin
            have hnle : n ≤ (b :: rest).length := le_trans hg.2 (min_le_left _ _)
            constructor
            · intro ht
              obtain ⟨rfl, hsp⟩ := hih.1 ht
              refine ⟨List.take_append_drop n (b :: rest), ?_⟩
              simp only [List.length_drop] at hsp
              have hsp2 : w1.startPos =
                  w.startPos + n + ((b :: rest).length - n) := hsp
              omega
            · exact hih.2
        · simp at h

/-- C6: when the fd writer's `WriteInternal` returns true, the bytes
handed to the POSIX write calls are exactly `src` (short writes are
completed by looping) and `start_pos` advanced by `src.size()`; a
false return never carries an `EINTR` errno, because `EINTR` is
retried. -/
theorem fdWriter_writeInternal_delivers_all (w : FdWriter) (src : List Nat)
    (oracle : List SysWrite) (ok : Bool) (w' : FdWriter) (out : List Nat)
    (hh : w.healthy = true) (hfe : w.failedErrno = none)
    (hrun : w.writeInternal src oracle = some (ok, w', out)) :
    (ok = true → out = src ∧ w'.startPos = w.startPos + src.length) ∧
    (ok = false → w'.failedErrno ≠ some EINTR) := by
  rw [FdWriter.writeInternal] at hrun
  split at hrun
  · obtain ⟨rfl, rfl, rfl⟩ := by simpa using hrun
    refine ⟨fun ht => by simp at ht, fun _ => ?_⟩
    simp [FdWriter.failOverflow, hfe]
  · have hspec := fdWriteLoop_spec oracle w src ok w' out hrun
    exact ⟨hspec.1, fun hf => (hspec.2 hf).1⟩

/-- C6 witness: a concrete run where the first attempt is interrupted
(`EINTR`), the second writes 2 of 3 bytes and the third the last byte;
the call returns true with all of [7, 8, 9] delivered and `start_pos`
advanced by 3. -/
theorem fdWriter_writeInternal_delivers_all_witness :
    (true = true →
       [7, 8, 9] = [7, 8, 9] ∧
       (⟨3, 0, 0, true, none, none⟩ : FdWriter).startPos =
         (⟨0, 0, 0, true, none, none⟩ : FdWriter).startPos +
           List.length [7, 8, 9]) ∧
    (true = false →
       (⟨3, 0, 0, true, none, none⟩ : FdWriter).failedErrno ≠ some EINTR) :=
  fdWriter_writeInternal_delivers_all ⟨0, 0, 0, true, none, none⟩ [7, 8, 9]
    [.errno 4, .wrote 2, .wrote 1] true ⟨3, 0, 0, true, none, none⟩ [7, 8, 9]
    rfl rfl (by decide)

/-- C9: a forward seek past the current file size returns false but
does not latch a failure: the writer stays healthy with unchanged
status, and its position becomes the file size. -/
theorem fdWriter_seek_past_end (w : FdWriter) (newPos : Nat)
    (hh : w.healthy = true) (hb : w.buffered = 0)
    (hfwd : newPos ≥ w.startPos) (hpast : newPos > w.fileSize) :
    (w.seekSlow newPos).1 = false ∧
    (w.seekSlow newPos).2.healthy = true ∧
    (w.seekSlow newPos).2.status = w.status ∧
    (w.seekSlow newPos).2.startPos = w.fileSize ∧
    (w.seekSlow newPos).2.pos = w.fileSize := by
  have hpush : w.pushInternal = (true, w) := by
    rw [FdWriter.pushInternal, if_neg (by simp [hh]), if_pos hb]
  simp only [FdWriter.seekSlow, hpush]
  rw [if_pos hfwd, if_pos hpast]
  exact ⟨rfl, hh, rfl, rfl, by simp [FdWriter.pos, hb]⟩

/-- C9 witness: seeking to 9 on a healthy writer at position 2 over a
5-byte file returns false, stays healthy, and lands at 5. -/
theorem fdWriter_seek_past_end_witness :
    (FdWriter.seekSlow ⟨2, 0, 5, true, none, none⟩ 9).1 = false ∧
    (FdWriter.seekSlow ⟨2, 0, 5, true, none, none⟩ 9).2.healthy = true ∧
    (FdWriter.seekSlow ⟨2, 0, 5, true, none, none⟩ 9).2.status = none ∧
    (FdWriter.seekSlow ⟨2, 0, 5, true, none, none⟩ 9).2.startPos = 5 ∧
    (FdWriter.seekSlow ⟨2, 0, 5, true, none, none⟩ 9).2.pos = 5 :=
  fdWriter_seek_past_end ⟨2, 0, 5, true, none, none⟩ 9 rfl rfl
    (by decide) (by decide)

/-- C10: for a healthy fd writer, `Size()` is the maximum of the file
size and `pos()`, hence never smaller than the current logical
position even while bytes sit in the buffer. -/
theorem fdWriter_size_reports_max (w : FdWriter) (hh : w.healthy = true) :
    w.sizeImpl = some (max w.fileSize w.pos) ∧
    ∀ s, w.sizeImpl = some s → w.pos ≤ s := by
  rw [FdWriter.sizeImpl, if_neg (by simp [hh])]
  refine ⟨rfl, fun s hs => ?_⟩
  have hmax : max w.fileSize w.pos = s := by simpa using hs
  exact hmax ▸ Nat.le_max_right _ _

/-- C10 witness: with file size 4, start position 3 and 3 buffered
bytes, `Size()` reports 6 = max 4 (3 + 3) ≥ pos. -/
theorem fdWriter_size_reports_max_witness :
    FdWriter.sizeImpl ⟨3, 3, 4, true, none, none⟩ =
      some (max 4 (FdWriter.pos ⟨3, 3, 4, true, none, none⟩)) ∧
    ∀ s, FdWriter.sizeImpl ⟨3, 3, 4, true, none, none⟩ = some s →
      FdWriter.pos ⟨3, 3, 4, true, none, none⟩ ≤ s :=
  fdWriter_size_reports_max ⟨3, 3, 4, true, none, none⟩ rfl

/-! ## Theorems: message serialization -/

/-- C7 counterexample: an uninitialized message (missing required
fields) whose serialized size 2^31 exceeds the 2 GiB limit is rejected
with invalid-argument, not resource-exhausted, because the
initialization check precedes the size check. -/
theorem serialize_oversized_uninitialized_counterexample :
    (⟨false, List.replicate (2 ^ 31) 0⟩ : ProtoMessage).bytes.length > intMax ∧
    (serializeToWriterImpl ⟨false, List.replicate (2 ^ 31) 0⟩ ⟨false, false⟩
        ⟨[], 0⟩).1.code = StatusCode.invalidArgument ∧
    (serializeToWriterImpl ⟨false, List.replicate (2 ^ 31) 0⟩ ⟨false, false⟩
        ⟨[], 0⟩).1.code ≠ StatusCode.resourceExhausted := by
  have h1 : (serializeToWriterImpl ⟨false, List.replicate (2 ^ 31) 0⟩
      ⟨false, false⟩ ⟨[], 0⟩).1.code = StatusCode.invalidArgument := rfl
  refine ⟨?_, h1, ?_⟩
  · simp only [List.length_replicate, intMax, gt_iff_lt]
    omega
  · rw [h1]
    decide

/-- C7 (amended): for every message passing the required-fields check
(fully initialized, or serialized with partial allowed), a serialized
size above 2^31 - 1 bytes fails with resource-exhausted and writes
nothing to the destination, while a size at or below it proceeds to
serialization. -/
theorem serializeToWriter_size_limit (src : ProtoMessage)
    (opts : SerializeOptions) (dest : MemWriter)
    (hinit : opts.allowUninitialized = true ∨ src.initialized = true) :
    (src.bytes.length > intMax →
       (serializeToWriterImpl src opts dest).1.code =
         StatusCode.resourceExhausted ∧
       (serializeToWriterImpl src opts dest).2 = dest) ∧
    (src.bytes.length ≤ intMax →
       (serializeToWriterImpl src opts dest).1.code = StatusCode.ok ∧
       (serializeToWriterImpl src opts dest).2 = dest.write src.bytes) := by
  have hfirst : ¬(opts.allowUninitialized = false ∧ src.initialized = false) := by
    rcases hinit with h | h <;> simp [h]
  rw [serializeToWriterImpl, if_neg hfirst]
  constructor
  · intro hgt
    rw [if_pos hgt]
    exact ⟨rfl, rfl⟩
  · intro hle
    rw [if_neg (by omega)]
    exact ⟨rfl, rfl⟩

/-- C7 witness: a small initialized message serializes successfully
into the destination. -/
theorem serializeToWriter_size_limit_witness :
    ((⟨true, [1, 2, 3]⟩ : ProtoMessage).bytes.length > intMax →
       (serializeToWriterImpl ⟨true, [1, 2, 3]⟩ ⟨false, false⟩ ⟨[], 0⟩).1.code =
         StatusCode.resourceExhausted ∧
       (serializeToWriterImpl ⟨true, [1, 2, 3]⟩ ⟨false, false⟩ ⟨[], 0⟩).2 =
         ⟨[], 0⟩) ∧
    ((⟨true, [1, 2, 3]⟩ : ProtoMessage).bytes.length ≤ intMax →
       (serializeToWriterImpl ⟨true, [1, 2, 3]⟩ ⟨false, false⟩ ⟨[], 0⟩).1.code =
         StatusCode.ok ∧
       (serializeToWriterImpl ⟨true, [1, 2, 3]⟩ ⟨false, false⟩ ⟨[], 0⟩).2 =
         MemWriter.write ⟨[], 0⟩ [1, 2, 3]) :=
  serializeToWriter_size_limit ⟨true, [1, 2, 3]⟩ ⟨false, false⟩ ⟨[], 0⟩
    (Or.inr rfl)

/-! ## Theorems: framed-Snappy writer -/

/-- C8: when the framed-Snappy writer's own flush of its buffered
block succeeds but the inner writer's flush fails, `Flush` still
returns true while the inner failure is latched into the status, so
afterwards the writer is unhealthy although the call reported
success. -/
theorem framedSnappy_flush_true_despite_inner_failure
    (w : FramedSnappyWriter) (flushType : FlushType)
    (hh : w.healthy = true)
    (hscope : flushType ≠ FlushType.fromObject ∨ w.owning = true)
    (hfail : w.innerFlushOk = false) :
    (w.flushImpl flushType).1 = true ∧
    (w.flushImpl flushType).2.healthy = false ∧
    (w.flushImpl flushType).2.status = some w.innerStatus := by
  have hbase : w.baseFlush = (true, { w with bufLen := 0 }) := by
    rw [FramedSnappyWriter.baseFlush, if_neg (by simp [hh])]
  simp only [FramedSnappyWriter.flushImpl, hbase]
  rw [if_pos (by simpa using hscope), if_pos (by simpa using hfail)]
  exact ⟨rfl, rfl, rfl⟩

/-- C8 witness: a healthy writer with 3 buffered bytes whose inner
flush fails: a from-process flush returns true yet leaves the writer
failed with the inner status. -/
theorem framedSnappy_flush_true_despite_inner_failure_witness :
    (FramedSnappyWriter.flushImpl
        ⟨3, true, true, false, ⟨.dataLoss, "inner flush failed"⟩, none⟩
        FlushType.fromProcess).1 = true ∧
    (FramedSnappyWriter.flushImpl
        ⟨3, true, true, false, ⟨.dataLoss, "inner flush failed"⟩, none⟩
        FlushType.fromProcess).2.healthy = false ∧
    (FramedSnappyWriter.flushImpl
        ⟨3, true, true, false, ⟨.dataLoss, "inner flush failed"⟩, none⟩
        FlushType.fromProcess).2.status =
      some ⟨.dataLoss, "inner flush failed"⟩ :=
  framedSnappy_flush_true_despite_inner_failure
    ⟨3, true, true, false, ⟨.dataLoss, "inner flush failed"⟩, none⟩
    FlushType.fromProcess rfl (Or.inl (by decide)) rfl

end Riegeli
